import Mathlib

/-!
Shallow embedding of the MRZ field normalizer of the OpenVerify repository.

The repository contains two textually identical copies of the routine
`prepare_mrz_names` (with its inner helper `sanitize_for_mrz`), one in
`src/labs/dataset_generation/bj_idcard_generator.py` and one in
`src/labs/dataset_generation/bj_passport_generator.py`.  Python strings are
modeled as `List Char`; Python's `len` is `List.length`; Python's `//` is
`Int.fdiv` (floor division); Python's slice `s[:k]` (including negative `k`)
is `pySliceTo`; Python's `str.strip()` is `pyStrip`; Python's
`str.replace(old, "")`, which deletes every non-overlapping occurrence of
`old` scanning left to right (and is the identity when `old` is empty), is
`removeAll`.  The host character classifier `str.isalpha` is passed in as an
explicit parameter `isalpha : Char → Bool`.
-/

/-- The ASCII whitespace characters stripped by Python's `str.strip()`.
(After `sanitize_for_mrz` the only whitespace character that can remain in a
string is `' '`, since every other whitespace character is neither kept by the
explicit `' '`/`'-'` test nor alphabetic for Python's classifier.) -/
def pyIsSpace (c : Char) : Bool :=
  c == ' ' || c == '\t' || c == '\n' || c == '\r' || c == '\x0b' || c == '\x0c'

/-- Python `s.strip()`: drop leading and trailing whitespace. -/
def pyStrip (s : List Char) : List Char :=
  (((s.dropWhile pyIsSpace).reverse).dropWhile pyIsSpace).reverse

/-- Fuel-driven worker for `removeAll`.  One unit of fuel is spent per
character position examined; since each step shortens the list, fuel equal to
the initial length always suffices, and the fuel-exhausted branch is never
reached when called through `removeAll`. -/
def removeAllAux (pat : List Char) : Nat → List Char → List Char
  | _, [] => []
  | 0, s => s
  | fuel + 1, c :: rest =>
    if !pat.isEmpty && pat.isPrefixOf (c :: rest) then
      removeAllAux pat fuel (List.drop pat.length (c :: rest))
    else
      c :: removeAllAux pat fuel rest

/-- Python `s.replace(pat, "")`: delete every non-overlapping occurrence of
`pat` from `s`, scanning left to right.  When `pat` is empty the result is
`s` unchanged, matching Python's behavior of inserting the empty replacement
between characters. -/
def removeAll (pat s : List Char) : List Char :=
  removeAllAux pat s.length s

/-- Python slice `s[:k]` for an arbitrary integer `k`: a nonnegative bound
takes the first `k` characters (clamped to the length), a negative bound
takes all but the last `-k` characters (clamped to the empty list). -/
def pySliceTo (s : List Char) (k : Int) : List Char :=
  if 0 ≤ k then s.take k.toNat else s.take (s.length - (-k).toNat)

/-- Whether `pat` occurs verbatim (contiguously) inside `s`; the empty
pattern occurs in every string. -/
def containsSub (pat : List Char) : List Char → Bool
  | [] => pat.isEmpty
  | c :: rest => pat.isPrefixOf (c :: rest) || containsSub pat rest

/-- The spec's step 2 read literally: remove only the FIRST occurrence of
`pat` from the string, leaving later occurrences in place; removing an empty
pattern removes nothing. -/
def specRemoveFirst (pat : List Char) : List Char → List Char
  | [] => []
  | c :: rest =>
    if !pat.isEmpty && pat.isPrefixOf (c :: rest) then
      List.drop pat.length (c :: rest)
    else
      c :: specRemoveFirst pat rest

namespace bj_idcard_generator

/-- `sanitize_for_mrz` from `src/labs/dataset_generation/bj_idcard_generator.py`:
keep a character iff the host classifier counts it alphabetic or it is a
space or hyphen. -/
def sanitize_for_mrz (isalpha : Char → Bool) (text : List Char) : List Char :=
  text.filter (fun c => isalpha c || c == ' ' || c == '-')

/-- `prepare_mrz_names` from `src/labs/dataset_generation/bj_idcard_generator.py`. -/
def prepare_mrz_names (isalpha : Char → Bool) (surname full_name : List Char)
    (max_length : Int) : List Char × List Char :=
  let surname := sanitize_for_mrz isalpha surname
  let full_name := sanitize_for_mrz isalpha full_name
  let given_names := pyStrip (removeAll surname full_name)
  if (surname.length : Int) + (given_names.length : Int) + 2 ≤ max_length then
    (surname, given_names)
  else
    let max_surname_length : Int :=
      min (surname.length : Int) (Int.fdiv (max_length - 2) 2)
    let surname_mrz := pySliceTo surname max_surname_length
    let max_given_length : Int := max_length - 2 - (surname_mrz.length : Int)
    let given_names_mrz := pySliceTo given_names max_given_length
    (surname_mrz, given_names_mrz)

/-- The intermediate `given_names` value computed inside `prepare_mrz_names`
(the sanitized full name with the sanitized surname removed, then stripped). -/
def mrz_given_names (isalpha : Char → Bool) (surname full_name : List Char) :
    List Char :=
  pyStrip (removeAll (sanitize_for_mrz isalpha surname)
    (sanitize_for_mrz isalpha full_name))

end bj_idcard_generator

namespace bj_passport_generator

/-- `sanitize_for_mrz` from `src/labs/dataset_generation/bj_passport_generator.py`. -/
def sanitize_for_mrz (isalpha : Char → Bool) (text : List Char) : List Char :=
  text.filter (fun c => isalpha c || c == ' ' || c == '-')

/-- `prepare_mrz_names` from `src/labs/dataset_generation/bj_passport_generator.py`. -/
def prepare_mrz_names (isalpha : Char → Bool) (surname full_name : List Char)
    (max_length : Int) : List Char × List Char :=
  let surname := sanitize_for_mrz isalpha surname
  let full_name := sanitize_for_mrz isalpha full_name
  let given_names := pyStrip (removeAll surname full_name)
  if (surname.length : Int) + (given_names.length : Int) + 2 ≤ max_length then
    (surname, given_names)
  else
    let max_surname_length : Int :=
      min (surname.length : Int) (Int.fdiv (max_length - 2) 2)
    let surname_mrz := pySliceTo surname max_surname_length
    let max_given_length : Int := max_length - 2 - (surname_mrz.length : Int)
    let given_names_mrz := pySliceTo given_names max_given_length
    (surname_mrz, given_names_mrz)

end bj_passport_generator

section Lemmas

lemma removeAllAux_subset (pat : List Char) :
    ∀ fuel s, removeAllAux pat fuel s ⊆ s := by
  intro fuel
  induction fuel with
  | zero => intro s; cases s <;> simp [removeAllAux]
  | succ n ih =>
    intro s
    cases s with
    | nil => simp [removeAllAux]
    | cons c rest =>
      simp only [removeAllAux]
      split
      · exact (ih _).trans (List.drop_subset _ _)
      · exact List.cons_subset_cons c (ih rest)

lemma removeAll_subset (pat s : List Char) : removeAll pat s ⊆ s :=
  removeAllAux_subset pat s.length s

lemma removeAllAux_length_le (pat : List Char) :
    ∀ fuel s, (removeAllAux pat fuel s).length ≤ s.length := by
  intro fuel
  induction fuel with
  | zero => intro s; cases s <;> simp [removeAllAux]
  | succ n ih =>
    intro s
    cases s with
    | nil => simp [removeAllAux]
    | cons c rest =>
      simp only [removeAllAux]
      split
      · have h1 := ih (List.drop pat.length (c :: rest))
        have h2 : (List.drop pat.length (c :: rest)).length ≤ (c :: rest).length := by
          rw [List.length_drop]; omega
        exact h1.trans h2
      · simpa using ih rest

lemma removeAll_length_le (pat s : List Char) :
    (removeAll pat s).length ≤ s.length :=
  removeAllAux_length_le pat s.length s

lemma removeAllAux_of_not_contains (pat : List Char) :
    ∀ fuel s, containsSub pat s = false → removeAllAux pat fuel s = s := by
  intro fuel
  induction fuel with
  | zero => intro s _; cases s <;> simp [removeAllAux]
  | succ n ih =>
    intro s h
    cases s with
    | nil => simp [removeAllAux]
    | cons c rest =>
      simp only [containsSub, Bool.or_eq_false_iff] at h
      simp only [removeAllAux, h.1, Bool.and_false, if_neg Bool.false_ne_true]
      rw [ih rest h.2]

lemma removeAll_of_not_contains (pat s : List Char)
    (h : containsSub pat s = false) : removeAll pat s = s :=
  removeAllAux_of_not_contains pat s.length s h

lemma removeAllAux_nil_pat : ∀ fuel s, removeAllAux [] fuel s = s := by
  intro fuel
  induction fuel with
  | zero => intro s; cases s <;> simp [removeAllAux]
  | succ n ih =>
    intro s
    cases s with
    | nil => simp [removeAllAux]
    | cons c rest => simp [removeAllAux, ih]

lemma removeAll_nil_pat (s : List Char) : removeAll [] s = s :=
  removeAllAux_nil_pat s.length s

lemma pyStrip_sublist (s : List Char) : (pyStrip s).Sublist s := by
  unfold pyStrip
  have h2 : (List.dropWhile pyIsSpace
      (List.dropWhile pyIsSpace s).reverse).Sublist
      (List.dropWhile pyIsSpace s).reverse := List.dropWhile_sublist _
  have h3 := h2.reverse
  rw [List.reverse_reverse] at h3
  exact h3.trans (List.dropWhile_sublist _)

lemma pyStrip_subset (s : List Char) : pyStrip s ⊆ s :=
  (pyStrip_sublist s).subset

lemma pyStrip_length_le (s : List Char) : (pyStrip s).length ≤ s.length :=
  (pyStrip_sublist s).length_le

lemma pySliceTo_eq_take (s : List Char) (k : Int) :
    ∃ n, pySliceTo s k = s.take n := by
  unfold pySliceTo
  split
  · exact ⟨_, rfl⟩
  · exact ⟨_, rfl⟩

lemma pySliceTo_isPre (s : List Char) (k : Int) : pySliceTo s k <+: s := by
  obtain ⟨n, h⟩ := pySliceTo_eq_take s k
  rw [h]
  exact List.take_prefix n s

lemma pySliceTo_subset (s : List Char) (k : Int) : pySliceTo s k ⊆ s :=
  (pySliceTo_isPre s k).sublist.subset

lemma pySliceTo_length_le (s : List Char) (k : Int) :
    (pySliceTo s k).length ≤ s.length :=
  (pySliceTo_isPre s k).length_le

lemma pySliceTo_of_nonneg (s : List Char) (k : Int) (hk : 0 ≤ k) :
    pySliceTo s k = s.take k.toNat := by
  unfold pySliceTo
  rw [if_pos hk]

lemma pySliceTo_length_of_nonneg (s : List Char) (k : Int) (hk : 0 ≤ k) :
    ((pySliceTo s k).length : Int) = min (s.length : Int) k := by
  rw [pySliceTo_of_nonneg s k hk, List.length_take]
  omega

end Lemmas

namespace bj_idcard_generator

/-- Branch analysis of `prepare_mrz_names`: either the combined budget fits
and both sanitized fields are returned unchanged, or the two truncating
slices are returned. -/
lemma prepare_cases (isalpha : Char → Bool) (surname full_name : List Char)
    (ml : Int) :
    (((sanitize_for_mrz isalpha surname).length : Int) +
        ((mrz_given_names isalpha surname full_name).length : Int) + 2 ≤ ml ∧
      prepare_mrz_names isalpha surname full_name ml =
        (sanitize_for_mrz isalpha surname,
         mrz_given_names isalpha surname full_name)) ∨
    (¬ (((sanitize_for_mrz isalpha surname).length : Int) +
        ((mrz_given_names isalpha surname full_name).length : Int) + 2 ≤ ml) ∧
      prepare_mrz_names isalpha surname full_name ml =
        (pySliceTo (sanitize_for_mrz isalpha surname)
            (min ((sanitize_for_mrz isalpha surname).length : Int)
              (Int.fdiv (ml - 2) 2)),
         pySliceTo (mrz_given_names isalpha surname full_name)
            (ml - 2 -
              ((pySliceTo (sanitize_for_mrz isalpha surname)
                  (min ((sanitize_for_mrz isalpha surname).length : Int)
                    (Int.fdiv (ml - 2) 2))).length : Int)))) := by
  simp only [prepare_mrz_names, mrz_given_names]
  split
  · exact Or.inl ⟨by assumption, rfl⟩
  · exact Or.inr ⟨by assumption, rfl⟩

lemma sanitize_all_keep (isalpha : Char → Bool) (text : List Char) :
    ∀ c ∈ sanitize_for_mrz isalpha text,
      (isalpha c || c == ' ' || c == '-') = true := by
  intro c hc
  simp only [sanitize_for_mrz] at hc
  simpa using List.of_mem_filter hc

lemma mrz_given_names_subset (isalpha : Char → Bool)
    (surname full_name : List Char) :
    mrz_given_names isalpha surname full_name ⊆
      sanitize_for_mrz isalpha full_name := by
  intro c hc
  exact removeAll_subset _ _ (pyStrip_subset _ hc)

lemma prepare_fst_subset (isalpha : Char → Bool) (surname full_name : List Char)
    (ml : Int) :
    (prepare_mrz_names isalpha surname full_name ml).1 ⊆
      sanitize_for_mrz isalpha surname := by
  rcases prepare_cases isalpha surname full_name ml with ⟨_, h⟩ | ⟨_, h⟩ <;> rw [h]
  · exact fun c hc => hc
  · exact pySliceTo_subset _ _

lemma prepare_snd_subset (isalpha : Char → Bool) (surname full_name : List Char)
    (ml : Int) :
    (prepare_mrz_names isalpha surname full_name ml).2 ⊆
      mrz_given_names isalpha surname full_name := by
  rcases prepare_cases isalpha surname full_name ml with ⟨_, h⟩ | ⟨_, h⟩ <;> rw [h]
  · exact fun c hc => hc
  · exact pySliceTo_subset _ _

lemma prepare_fst_keep (isalpha : Char → Bool) (surname full_name : List Char)
    (ml : Int) :
    ∀ c ∈ (prepare_mrz_names isalpha surname full_name ml).1,
      (isalpha c || c == ' ' || c == '-') = true := by
  intro c hc
  exact sanitize_all_keep isalpha surname c
    (prepare_fst_subset isalpha surname full_name ml hc)

lemma prepare_snd_keep (isalpha : Char → Bool) (surname full_name : List Char)
    (ml : Int) :
    ∀ c ∈ (prepare_mrz_names isalpha surname full_name ml).2,
      (isalpha c || c == ' ' || c == '-') = true := by
  intro c hc
  exact sanitize_all_keep isalpha full_name c
    (mrz_given_names_subset isalpha surname full_name
      (prepare_snd_subset isalpha surname full_name ml hc))

lemma sanitize_of_all_keep (isalpha : Char → Bool) (l : List Char)
    (h : ∀ c ∈ l, (isalpha c || c == ' ' || c == '-') = true) :
    sanitize_for_mrz isalpha l = l :=
  List.filter_eq_self.2 h

/-- Output-budget bound, valid for every `max_length ≥ 2`. -/
lemma prepare_budget_aux (isalpha : Char → Bool) (surname full_name : List Char)
    (ml : Int) (hml : 2 ≤ ml) :
    ((prepare_mrz_names isalpha surname full_name ml).1.length : Int) +
      ((prepare_mrz_names isalpha surname full_name ml).2.length : Int) + 2 ≤
      ml := by
  rcases prepare_cases isalpha surname full_name ml with ⟨hle, h⟩ | ⟨hgt, h⟩ <;>
    rw [h]
  · simpa using hle
  · have hfd0 : 0 ≤ Int.fdiv (ml - 2) 2 := Int.fdiv_nonneg (by omega) (by omega)
    have hfdle : Int.fdiv (ml - 2) 2 ≤ ml - 2 := by
      rw [Int.fdiv_eq_ediv _ (by omega)]
      exact Int.ediv_le_self 2 (by omega)
    have hm0 : 0 ≤ min ((sanitize_for_mrz isalpha surname).length : Int)
        (Int.fdiv (ml - 2) 2) := le_min (by positivity) hfd0
    have hs := pySliceTo_length_of_nonneg (sanitize_for_mrz isalpha surname)
      _ hm0
    have hg0 : 0 ≤ ml - 2 -
        ((pySliceTo (sanitize_for_mrz isalpha surname)
            (min ((sanitize_for_mrz isalpha surname).length : Int)
              (Int.fdiv (ml - 2) 2))).length : Int) := by
      omega
    have hgl := pySliceTo_length_of_nonneg
      (mrz_given_names isalpha surname full_name) _ hg0
    simp only
    omega

end bj_idcard_generator

/-- C1 (counterexample): the combined-length guarantee fails as universally
stated.  At `max_length = 0` with empty inputs, `prepare_mrz_names` returns
the pair of empty fields, whose combined length plus the 2-character
separator is `2 > 0`. -/
theorem budget_counterexample :
    bj_idcard_generator.prepare_mrz_names Char.isAlpha [] [] 0 = ([], []) ∧
    ¬ (((bj_idcard_generator.prepare_mrz_names Char.isAlpha [] [] 0).1.length : Int) +
        ((bj_idcard_generator.prepare_mrz_names Char.isAlpha [] [] 0).2.length : Int) +
        2 ≤ 0) := by decide

/-- C1 (amended): for every `max_length ≥ 2` (in particular the default 39),
the lengths of the two returned fields plus the 2-character separator never
exceed `max_length`. -/
theorem prepare_mrz_names_budget (isalpha : Char → Bool)
    (surname full_name : List Char) (ml : Int) (hml : 2 ≤ ml) :
    ((bj_idcard_generator.prepare_mrz_names isalpha surname full_name ml).1.length : Int) +
      ((bj_idcard_generator.prepare_mrz_names isalpha surname full_name ml).2.length : Int) +
      2 ≤ ml :=
  bj_idcard_generator.prepare_budget_aux isalpha surname full_name ml hml

/-- C1 (witness): the budget bound evaluated at a concrete input. -/
theorem prepare_mrz_names_budget_witness :
    ((bj_idcard_generator.prepare_mrz_names Char.isAlpha "Kouassi Efua Santos".toList
        "Jean Baptiste Kouassi Efua Santos Junior".toList 39).1.length : Int) +
      ((bj_idcard_generator.prepare_mrz_names Char.isAlpha "Kouassi Efua Santos".toList
        "Jean Baptiste Kouassi Efua Santos Junior".toList 39).2.length : Int) +
      2 ≤ 39 :=
  prepare_mrz_names_budget Char.isAlpha "Kouassi Efua Santos".toList
    "Jean Baptiste Kouassi Efua Santos Junior".toList 39 (by decide)

/-- C3: every character of both returned fields is alphabetic (per the host
classifier `isalpha`), a space, or a hyphen. -/
theorem output_charset (isalpha : Char → Bool) (surname full_name : List Char)
    (ml : Int) :
    (((bj_idcard_generator.prepare_mrz_names isalpha surname full_name ml).1 ++
        (bj_idcard_generator.prepare_mrz_names isalpha surname full_name ml).2).all
      (fun c => isalpha c || c == ' ' || c == '-')) = true := by
  rw [List.all_eq_true]
  intro c hc
  rcases List.mem_append.1 hc with h | h
  · exact bj_idcard_generator.prepare_fst_keep isalpha surname full_name ml c h
  · exact bj_idcard_generator.prepare_snd_keep isalpha surname full_name ml c h

/-- C4: whenever the sanitized surname length plus the derived given-names
length plus 2 fits within `max_length`, `prepare_mrz_names` returns the
sanitized surname and the derived given names unmodified. -/
theorem no_truncation_within_budget (isalpha : Char → Bool)
    (surname full_name : List Char) (ml : Int)
    (h : ((bj_idcard_generator.sanitize_for_mrz isalpha surname).length : Int) +
      ((bj_idcard_generator.mrz_given_names isalpha surname full_name).length : Int) +
      2 ≤ ml) :
    bj_idcard_generator.prepare_mrz_names isalpha surname full_name ml =
      (bj_idcard_generator.sanitize_for_mrz isalpha surname,
       bj_idcard_generator.mrz_given_names isalpha surname full_name) := by
  rcases bj_idcard_generator.prepare_cases isalpha surname full_name ml with
    ⟨_, hh⟩ | ⟨hn, _⟩
  · exact hh
  · exact absurd h hn

/-- C4 (witness): the no-truncation case evaluated at a concrete input. -/
theorem no_truncation_within_budget_witness :
    bj_idcard_generator.prepare_mrz_names Char.isAlpha "Dupont".toList
      "Jean Dupont".toList 39 =
      (bj_idcard_generator.sanitize_for_mrz Char.isAlpha "Dupont".toList,
       bj_idcard_generator.mrz_given_names Char.isAlpha "Dupont".toList
         "Jean Dupont".toList) :=
  no_truncation_within_budget Char.isAlpha "Dupont".toList "Jean Dupont".toList
    39 (by decide)

/-- C7: `prepare_mrz_names` is total: every input (the empty string and
fully-non-alphabetic strings included) yields a pair of strings.  All the
string primitives it is built from (`filter`, `replace`, `strip`, slicing)
are themselves total, so the embedding has no error or exception case. -/
theorem prepare_total (isalpha : Char → Bool) (surname full_name : List Char)
    (ml : Int) :
    ∃ s g : List Char,
      bj_idcard_generator.prepare_mrz_names isalpha surname full_name ml = (s, g) :=
  ⟨_, _, rfl⟩

/-- C8: with an empty surname, `prepare_mrz_names("", "Jean Dupont", 39)`
removes nothing from the full name (the empty pattern deletes nothing) and
returns `("", "Jean Dupont")`. -/
theorem empty_surname_example :
    bj_idcard_generator.prepare_mrz_names Char.isAlpha "".toList
      "Jean Dupont".toList 39 = ([], "Jean Dupont".toList) := by decide

/-- C9: the copy of `prepare_mrz_names` in `bj_idcard_generator.py` and the
copy in `bj_passport_generator.py` agree on every input. -/
theorem idcard_passport_agree (isalpha : Char → Bool)
    (surname full_name : List Char) (ml : Int) :
    bj_idcard_generator.prepare_mrz_names isalpha surname full_name ml =
      bj_passport_generator.prepare_mrz_names isalpha surname full_name ml := rfl

/-- C10: the returned surname field is a prefix of the sanitized surname, the
returned given-names field is a prefix of the derived given names, and in
particular neither field is longer than its source. -/
theorem fields_from_sources (isalpha : Char → Bool)
    (surname full_name : List Char) (ml : Int) :
    (bj_idcard_generator.prepare_mrz_names isalpha surname full_name ml).1 <+:
        bj_idcard_generator.sanitize_for_mrz isalpha surname ∧
    (bj_idcard_generator.prepare_mrz_names isalpha surname full_name ml).2 <+:
        bj_idcard_generator.mrz_given_names isalpha surname full_name ∧
    (bj_idcard_generator.prepare_mrz_names isalpha surname full_name ml).1.length ≤
        (bj_idcard_generator.sanitize_for_mrz isalpha surname).length ∧
    (bj_idcard_generator.prepare_mrz_names isalpha surname full_name ml).2.length ≤
        (bj_idcard_generator.mrz_given_names isalpha surname full_name).length := by
  rcases bj_idcard_generator.prepare_cases isalpha surname full_name ml with
    ⟨_, h⟩ | ⟨_, h⟩ <;> rw [h]
  · exact ⟨List.prefix_refl _, List.prefix_refl _, le_refl _, le_refl _⟩
  · exact ⟨pySliceTo_isPre _ _, pySliceTo_isPre _ _,
      pySliceTo_length_le _ _, pySliceTo_length_le _ _⟩

/-- C2 (counterexample): the derivation does NOT remove only the first
occurrence of the surname.  With surname `"AA"` and full name `"AA AA"`,
removing only the first occurrence and trimming would leave `"AA"`, but the
code (Python `str.replace`, which deletes every occurrence) leaves the empty
string. -/
theorem first_occurrence_counterexample :
    (bj_idcard_generator.prepare_mrz_names Char.isAlpha "AA".toList
        "AA AA".toList 39).2 = [] ∧
    pyStrip (specRemoveFirst
        (bj_idcard_generator.sanitize_for_mrz Char.isAlpha "AA".toList)
        (bj_idcard_generator.sanitize_for_mrz Char.isAlpha "AA AA".toList)) =
      "AA".toList ∧
    ([] : List Char) ≠ "AA".toList := by decide

/-- C2 (amended): the given-names value is derived by deleting EVERY
non-overlapping occurrence (scanning left to right) of the sanitized surname
from the sanitized full name and then trimming surrounding whitespace; in
particular, when the sanitized surname does not occur verbatim in the
sanitized full name, the given names equal the trimmed sanitized full
name. -/
theorem given_names_removes_every_occurrence (isalpha : Char → Bool)
    (surname full_name : List Char) :
    bj_idcard_generator.mrz_given_names isalpha surname full_name =
      pyStrip (removeAll
        (bj_idcard_generator.sanitize_for_mrz isalpha surname)
        (bj_idcard_generator.sanitize_for_mrz isalpha full_name)) ∧
    (containsSub (bj_idcard_generator.sanitize_for_mrz isalpha surname)
        (bj_idcard_generator.sanitize_for_mrz isalpha full_name) = false →
      bj_idcard_generator.mrz_given_names isalpha surname full_name =
        pyStrip (bj_idcard_generator.sanitize_for_mrz isalpha full_name)) := by
  refine ⟨rfl, fun h => ?_⟩
  unfold bj_idcard_generator.mrz_given_names
  rw [removeAll_of_not_contains _ _ h]

/-- C2 (witness): at a surname that does not occur in the full name, the
derived given names are the trimmed sanitized full name. -/
theorem given_names_removes_every_occurrence_witness :
    bj_idcard_generator.mrz_given_names Char.isAlpha "Smith".toList
        "Jean Dupont".toList =
      pyStrip (bj_idcard_generator.sanitize_for_mrz Char.isAlpha
        "Jean Dupont".toList) :=
  (given_names_removes_every_occurrence Char.isAlpha "Smith".toList
    "Jean Dupont".toList).2 (by decide)

/-- C5 (counterexample): the truncation formula fails as universally stated.
At `max_length = 0` with surname `"AB"` and empty full name, the formula's
surname budget `min(len("AB"), floor((0-2)/2)) = -1` would select no ("the
first -1") characters, but the code's Python slice `"AB"[:-1]` keeps `"A"`. -/
theorem truncation_formula_counterexample :
    ¬ (((bj_idcard_generator.sanitize_for_mrz Char.isAlpha "AB".toList).length : Int) +
        ((bj_idcard_generator.mrz_given_names Char.isAlpha "AB".toList []).length : Int) +
        2 ≤ 0) ∧
    (bj_idcard_generator.prepare_mrz_names Char.isAlpha "AB".toList [] 0).1 =
      ['A'] ∧
    List.take (min ((bj_idcard_generator.sanitize_for_mrz Char.isAlpha
        "AB".toList).length : Int) (Int.fdiv (0 - 2) 2)).toNat
      (bj_idcard_generator.sanitize_for_mrz Char.isAlpha "AB".toList) = [] ∧
    (['A'] : List Char) ≠ [] := by decide

/-- C5 (amended): for `max_length ≥ 2`, in the truncation case the surname
field consists of the first `min(len(surname), floor((max_length - 2) / 2))`
characters of the sanitized surname, and the given-names field of the first
`max_length - 2 - len(surname_field)` characters of the derived given
names. -/
theorem truncation_formula_of_budget (isalpha : Char → Bool)
    (surname full_name : List Char) (ml : Int) (hml : 2 ≤ ml)
    (h : ¬ (((bj_idcard_generator.sanitize_for_mrz isalpha surname).length : Int) +
      ((bj_idcard_generator.mrz_given_names isalpha surname full_name).length : Int) +
      2 ≤ ml)) :
    (bj_idcard_generator.prepare_mrz_names isalpha surname full_name ml).1 =
      (bj_idcard_generator.sanitize_for_mrz isalpha surname).take
        (min (bj_idcard_generator.sanitize_for_mrz isalpha surname).length
          (Int.fdiv (ml - 2) 2).toNat) ∧
    (bj_idcard_generator.prepare_mrz_names isalpha surname full_name ml).2 =
      (bj_idcard_generator.mrz_given_names isalpha surname full_name).take
        (ml - 2 -
          ((bj_idcard_generator.prepare_mrz_names isalpha surname full_name
            ml).1.length : Int)).toNat := by
  rcases bj_idcard_generator.prepare_cases isalpha surname full_name ml with
    ⟨hle, _⟩ | ⟨_, hh⟩
  · exact absurd hle h
  · have hfd0 : 0 ≤ Int.fdiv (ml - 2) 2 := Int.fdiv_nonneg (by omega) (by omega)
    have hfdle : Int.fdiv (ml - 2) 2 ≤ ml - 2 := by
      rw [Int.fdiv_eq_ediv _ (by omega)]
      exact Int.ediv_le_self 2 (by omega)
    have hm0 : 0 ≤ min ((bj_idcard_generator.sanitize_for_mrz isalpha
        surname).length : Int) (Int.fdiv (ml - 2) 2) :=
      le_min (by positivity) hfd0
    have hfst : (bj_idcard_generator.prepare_mrz_names isalpha surname
        full_name ml).1 =
        pySliceTo (bj_idcard_generator.sanitize_for_mrz isalpha surname)
          (min ((bj_idcard_generator.sanitize_for_mrz isalpha surname).length : Int)
            (Int.fdiv (ml - 2) 2)) := by
      rw [hh]
    have hsnd : (bj_idcard_generator.prepare_mrz_names isalpha surname
        full_name ml).2 =
        pySliceTo (bj_idcard_generator.mrz_given_names isalpha surname full_name)
          (ml - 2 -
            ((pySliceTo (bj_idcard_generator.sanitize_for_mrz isalpha surname)
              (min ((bj_idcard_generator.sanitize_for_mrz isalpha surname).length : Int)
                (Int.fdiv (ml - 2) 2))).length : Int)) := by
      rw [hh]
    have hlen := pySliceTo_length_of_nonneg
      (bj_idcard_generator.sanitize_for_mrz isalpha surname)
      (min ((bj_idcard_generator.sanitize_for_mrz isalpha surname).length : Int)
        (Int.fdiv (ml - 2) 2)) hm0
    constructor
    · rw [hfst, pySliceTo_of_nonneg _ _ hm0]
      congr 1
      omega
    · have hg0 : 0 ≤ ml - 2 -
          ((pySliceTo (bj_idcard_generator.sanitize_for_mrz isalpha surname)
            (min ((bj_idcard_generator.sanitize_for_mrz isalpha surname).length : Int)
              (Int.fdiv (ml - 2) 2))).length : Int) := by
        omega
      rw [hsnd, hfst, pySliceTo_of_nonneg _ _ hg0]

/-- C5 (witness): the spec's own truncation example, surname of length 30
and given names of length 20 at `max_length = 39`: the surname field keeps
18 characters and the given-names field 19. -/
theorem truncation_formula_of_budget_witness :
    (bj_idcard_generator.prepare_mrz_names Char.isAlpha (List.replicate 30 'A')
        (List.replicate 30 'A' ++ ' ' :: List.replicate 20 'B') 39).1 =
      (bj_idcard_generator.sanitize_for_mrz Char.isAlpha
        (List.replicate 30 'A')).take
        (min (bj_idcard_generator.sanitize_for_mrz Char.isAlpha
          (List.replicate 30 'A')).length (Int.fdiv (39 - 2) 2).toNat) ∧
    (bj_idcard_generator.prepare_mrz_names Char.isAlpha (List.replicate 30 'A')
        (List.replicate 30 'A' ++ ' ' :: List.replicate 20 'B') 39).2 =
      (bj_idcard_generator.mrz_given_names Char.isAlpha (List.replicate 30 'A')
        (List.replicate 30 'A' ++ ' ' :: List.replicate 20 'B')).take
        (39 - 2 -
          ((bj_idcard_generator.prepare_mrz_names Char.isAlpha
            (List.replicate 30 'A')
            (List.replicate 30 'A' ++ ' ' :: List.replicate 20 'B')
            39).1.length : Int)).toNat :=
  truncation_formula_of_budget Char.isAlpha (List.replicate 30 'A')
    (List.replicate 30 'A' ++ ' ' :: List.replicate 20 'B') 39 (by decide)
    (by decide)

/-- C6 (counterexample): `prepare_mrz_names` is not idempotent.  For surname
`"AB"` and full name `"AABB"`, deleting the occurrences of `"AB"` from
`"AABB"` leaves a fresh `"AB"`, so the first application returns
`("AB", "AB")`; reapplying the normalizer to that pair deletes the surname
from the given names and returns `("AB", "")`. -/
theorem idempotence_counterexample :
    bj_idcard_generator.prepare_mrz_names Char.isAlpha
        (bj_idcard_generator.prepare_mrz_names Char.isAlpha "AB".toList
          "AABB".toList 39).1
        (bj_idcard_generator.prepare_mrz_names Char.isAlpha "AB".toList
          "AABB".toList 39).2 39 ≠
      bj_idcard_generator.prepare_mrz_names Char.isAlpha "AB".toList
        "AABB".toList 39 := by decide

/-- C6 (amended): reapplying `prepare_mrz_names` to its own output pair is
the identity provided `max_length ≥ 2`, deleting the output surname field
from the output given-names field changes nothing (in particular the surname
does not occur inside the given names), and the output given-names field
carries no leading or trailing whitespace (truncation can leave a trailing
space). -/
theorem idempotent_of_stable (isalpha : Char → Bool)
    (surname full_name : List Char) (ml : Int) (hml : 2 ≤ ml)
    (hrem : removeAll
        (bj_idcard_generator.prepare_mrz_names isalpha surname full_name ml).1
        (bj_idcard_generator.prepare_mrz_names isalpha surname full_name ml).2 =
      (bj_idcard_generator.prepare_mrz_names isalpha surname full_name ml).2)
    (hstrip : pyStrip
        (bj_idcard_generator.prepare_mrz_names isalpha surname full_name ml).2 =
      (bj_idcard_generator.prepare_mrz_names isalpha surname full_name ml).2) :
    bj_idcard_generator.prepare_mrz_names isalpha
        (bj_idcard_generator.prepare_mrz_names isalpha surname full_name ml).1
        (bj_idcard_generator.prepare_mrz_names isalpha surname full_name ml).2
        ml =
      bj_idcard_generator.prepare_mrz_names isalpha surname full_name ml := by
  have hbudget := bj_idcard_generator.prepare_budget_aux isalpha surname
    full_name ml hml
  have h1 := bj_idcard_generator.prepare_fst_keep isalpha surname full_name ml
  have h2 := bj_idcard_generator.prepare_snd_keep isalpha surname full_name ml
  rcases hp : bj_idcard_generator.prepare_mrz_names isalpha surname full_name ml
    with ⟨s, g⟩
  rw [hp] at hrem hstrip hbudget h1 h2
  dsimp only at hrem hstrip hbudget h1 h2 ⊢
  have hs : bj_idcard_generator.sanitize_for_mrz isalpha s = s :=
    bj_idcard_generator.sanitize_of_all_keep isalpha s h1
  have hg : bj_idcard_generator.sanitize_for_mrz isalpha g = g :=
    bj_idcard_generator.sanitize_of_all_keep isalpha g h2
  simp only [bj_idcard_generator.prepare_mrz_names]
  rw [hs, hg, hrem, hstrip, if_pos hbudget]

/-- C6 (witness): the amended idempotence evaluated at surname `"Doe"` and
full name `"John Doe"`: the output pair `("Doe", "John")` is a fixed point. -/
theorem idempotent_of_stable_witness :
    bj_idcard_generator.prepare_mrz_names Char.isAlpha
        (bj_idcard_generator.prepare_mrz_names Char.isAlpha "Doe".toList
          "John Doe".toList 39).1
        (bj_idcard_generator.prepare_mrz_names Char.isAlpha "Doe".toList
          "John Doe".toList 39).2 39 =
      bj_idcard_generator.prepare_mrz_names Char.isAlpha "Doe".toList
        "John Doe".toList 39 :=
  idempotent_of_stable Char.isAlpha "Doe".toList "John Doe".toList 39
    (by decide) (by decide) (by decide)

section Sanity

example :
    bj_idcard_generator.prepare_mrz_names Char.isAlpha "".toList
      "Jean Dupont".toList 39 = ([], "Jean Dupont".toList) := by decide

example :
    bj_idcard_generator.prepare_mrz_names Char.isAlpha "OBrien-Smith".toList
      "Jean OBrien-Smith".toList 39 =
      ("OBrien-Smith".toList, "Jean".toList) := by decide

example : removeAll "AB".toList "AABB".toList = "AB".toList := by decide

example :
    bj_idcard_generator.prepare_mrz_names Char.isAlpha "AB".toList [] 0 =
      (['A'], []) := by decide

end Sanity
